import Mathlib

/-!
Verification development for the SoPlex LP-solver sources.

Real arithmetic (`Real` in the C++ sources) is embedded as `ℚ`; the
floating-point aspects of the claims are read as exact arithmetic.
The files `validation.cpp`, `statistics.cpp` and `soplexmain.cpp` are
embedded directly; parts of the library that are only declared in the
available headers (`soplex2.h`, `spxscaler.h`) are modelled from the
specification, as marked in the corresponding doc comments.
-/

namespace soplex

/-- Solver status codes, from the specification's status-code list
(OPTIMAL, INFEASIBLE, UNBOUNDED, ABORT_TIME, ABORT_ITER, ABORT_VALUE,
SINGULAR, NO_PROBLEM, ERROR); `validation.cpp` compares against
`SPxSolver::OPTIMAL`. -/
inductive SPxStatus where
  | OPTIMAL
  | INFEASIBLE
  | UNBOUNDED
  | ABORT_TIME
  | ABORT_ITER
  | ABORT_VALUE
  | SINGULAR
  | NO_PROBLEM
  | ERROR
deriving DecidableEq, Repr

/-- Modelled from the spec: `DEFAULT_INFINITY` is the infinity sentinel of
`spxdefines.h`, which is not among the available sources; the spec calls it
the "±infinity sentinel" / "infinity threshold" (value 1e100 in SoPlex). -/
def DEFAULT_INFINITY : ℚ := 10 ^ 100

/-- Modelled from the spec: the comparison helper `EQ(a, b, eps)` of
`spxdefines.h` (not among the available sources); per the spec's numeric
policy, "all feasibility/violation checks against tolerances use closed
intervals (≤, not <)", so `EQ` holds iff the absolute difference is at
most the tolerance. -/
def EQ (a b eps : ℚ) : Bool := decide (|a - b| ≤ eps)

/-- Modelled from the spec: the comparison helper `LE(a, b)` of
`spxdefines.h` (not among the available sources); per the spec's
closed-interval convention, `LE` holds iff `a ≤ b`. -/
def LE (a b : ℚ) : Bool := decide (a ≤ b)

/-- State of the `Validation` class (`validation.cpp`): the validate flag,
the externally supplied solution string, and the validation tolerance. -/
structure Validation where
  validate : Bool
  validatesolution : String
  validatetolerance : ℚ
deriving DecidableEq, Repr

/-- Embeds `Validation::updateExternalSolution` (validation.cpp:14-19):
stores the solution string, sets the validate flag, and returns true. -/
def Validation.updateExternalSolution (solution : String) (v : Validation) :
    Bool × Validation :=
  (true, { v with validatesolution := solution, validate := true })

/-- Embeds `Validation::updateValidationTolerance` (validation.cpp:23-27):
stores the tolerance and returns true. -/
def Validation.updateValidationTolerance (tolerance : ℚ) (v : Validation) :
    Bool × Validation :=
  (true, { v with validatetolerance := tolerance })

/-- The solver-side observations `validateSolveReal` queries: status,
`objValueReal()`, and the four maximum violations returned through
`getBoundViolationReal` / `getRowViolationReal` /
`getRedCostViolationReal` / `getDualViolationReal` (with their sum
companions, which only feed the printed report). -/
structure SoPlex where
  status : SPxStatus
  objValueReal : ℚ
  maxBoundViolation : ℚ
  sumBoundViolation : ℚ
  maxRowViolation : ℚ
  sumRowViolation : ℚ
  maxRedCostViolation : ℚ
  sumRedCostViolation : ℚ
  maxDualViolation : ℚ
  sumDualViolation : ℚ
deriving DecidableEq, Repr

/-- Embeds the parsing of the external solution string
(validation.cpp:50-61): a `strncmp(solstr, "+infinity", 9) == 0` prefix
test for the infinity sentinels, otherwise `strtod`; the `strtod`
conversion itself is external C-library behaviour and is passed in as a
function `strtod`.  The `if (*tailptr)` branch of the source has an empty
body, so a conversion failure has no effect on the parsed value. -/
def parseExternalSol (strtod : String → ℚ) (solstr : String) : ℚ :=
  if solstr.startsWith "+infinity" then DEFAULT_INFINITY
  else if solstr.startsWith "-infinity" then -DEFAULT_INFINITY
  else strtod solstr

/-- Embeds `Validation::validateSolveReal` (validation.cpp:32-113),
returning `passedValidation`: starts true; cleared if the objective
violation fails `EQ(objViolation, 0.0, validatetolerance)`; when the
status is `OPTIMAL`, additionally cleared if any of the four maximum
violations fails `LE(viol, validatetolerance)`.  Stream output is
dropped. -/
def Validation.validateSolveReal (strtod : String → ℚ) (v : Validation)
    (soplex : SoPlex) : Bool :=
  let passedValidation : Bool := true
  let sol : ℚ := parseExternalSol strtod v.validatesolution
  let objViolation : ℚ := |sol - soplex.objValueReal|
  let passedValidation : Bool :=
    if !(EQ objViolation 0 v.validatetolerance) then false else passedValidation
  let passedValidation : Bool :=
    if soplex.status = SPxStatus.OPTIMAL then
      let passedValidation : Bool :=
        if !(LE soplex.maxBoundViolation v.validatetolerance) then false
        else passedValidation
      let passedValidation : Bool :=
        if !(LE soplex.maxRowViolation v.validatetolerance) then false
        else passedValidation
      let passedValidation : Bool :=
        if !(LE soplex.maxRedCostViolation v.validatetolerance) then false
        else passedValidation
      let passedValidation : Bool :=
        if !(LE soplex.maxDualViolation v.validatetolerance) then false
        else passedValidation
      passedValidation
    else passedValidation
  passedValidation

/-- Embeds the `--extsol=<value>` usage-error branch of `runSoPlex`
(soplexmain.cpp:676-685): the branch printing usage and failing is taken
iff `updateExternalSolution` returns false. -/
def extsolUsageErrorBranchTaken (input : String) (v : Validation) : Bool :=
  !(Validation.updateExternalSolution input v).fst

/-- State of `SoPlex::Statistics` (`statistics.cpp`): the eight timers
(a timer is embedded as its accumulated time; `Timer::reset` is not among
the available sources and, modelled from the spec's treatment of timing
statistics, sets the accumulated time to 0), the four LU time
accumulators, and the thirteen counters.  Counters are `Int`
(C++ `int`). -/
structure Statistics where
  readingTime : ℚ
  solvingTime : ℚ
  preprocessingTime : ℚ
  simplexTime : ℚ
  syncTime : ℚ
  transformTime : ℚ
  rationalTime : ℚ
  reconstructionTime : ℚ
  luFactorizationTimeReal : ℚ
  luSolveTimeReal : ℚ
  luFactorizationTimeRational : ℚ
  luSolveTimeRational : ℚ
  iterations : Int
  iterationsPrimal : Int
  iterationsFromBasis : Int
  boundflips : Int
  luFactorizationsReal : Int
  luSolvesReal : Int
  luFactorizationsRational : Int
  rationalReconstructions : Int
  refinements : Int
  stallRefinements : Int
  pivotRefinements : Int
  feasRefinements : Int
  unbdRefinements : Int

/-- Embeds `SoPlex::Statistics::clearSolvingData` (statistics.cpp:48-74):
resets the seven solving-process timers, the four LU time accumulators,
and the thirteen counters; `readingTime` is not touched. -/
def Statistics.clearSolvingData (s : Statistics) : Statistics :=
  { s with
    solvingTime := 0
    preprocessingTime := 0
    simplexTime := 0
    syncTime := 0
    transformTime := 0
    rationalTime := 0
    reconstructionTime := 0
    luFactorizationTimeReal := 0
    luSolveTimeReal := 0
    luFactorizationTimeRational := 0
    luSolveTimeRational := 0
    iterations := 0
    iterationsPrimal := 0
    iterationsFromBasis := 0
    boundflips := 0
    luFactorizationsReal := 0
    luSolvesReal := 0
    luFactorizationsRational := 0
    rationalReconstructions := 0
    refinements := 0
    stallRefinements := 0
    pivotRefinements := 0
    feasRefinements := 0
    unbdRefinements := 0 }

/-- Embeds `SoPlex::Statistics::clearAllData` (statistics.cpp:41-45):
`readingTime->reset()` followed by `clearSolvingData()`. -/
def Statistics.clearAllData (s : Statistics) : Statistics :=
  Statistics.clearSolvingData { s with readingTime := 0 }

/-- Embeds the `SoPlex::Statistics` constructor (statistics.cpp:27-38):
the timers are created (the fields before `clearAllData` runs are the
otherwise-uninitialised state `init`) and then `clearAllData()` is
invoked. -/
def Statistics.construct (init : Statistics) : Statistics :=
  Statistics.clearAllData init

/-- Modelled from the spec: one row of `scaleMatrix` below.  Scaling by
the row factor `r` and the column factors `cs` multiplies the entry in
column `j` by `r * cs j`; `j` is the column index of the first entry. -/
def scaleRow (r : ℚ) (cs : ℕ → ℚ) : ℕ → List ℚ → List ℚ
  | _, [] => []
  | j, a :: rest => a * (r * cs j) :: scaleRow r cs (j + 1) rest

/-- Modelled from the spec: `SPxScaler::scale` applied to the coefficient
matrix.  `spxscaler.h` declares `scale()` (pure virtual) storing row
factors `m_rowscale` and column factors `m_colscale`; its implementations
are not among the available sources.  Per the spec, a scaler "rescales
constraint matrix rows/columns by power-of-two or geometric/equilibrium
factors": entry `(i, j)` is multiplied by `rs i * cs j`.  The matrix is
the list of rows; `i` is the row index of the first row. -/
def scaleMatrix (rs cs : ℕ → ℚ) : ℕ → List (List ℚ) → List (List ℚ)
  | _, [] => []
  | i, row :: rest => scaleRow (rs i) cs 0 row :: scaleMatrix rs cs (i + 1) rest

/-- Modelled from the spec: one row of `unscaleMatrix` below, dividing
each entry by the stored factors. -/
def unscaleRow (r : ℚ) (cs : ℕ → ℚ) : ℕ → List ℚ → List ℚ
  | _, [] => []
  | j, a :: rest => a / (r * cs j) :: unscaleRow r cs (j + 1) rest

/-- Modelled from the spec: `SPxScaler::unscale` (spxscaler.h:70 declares
it; the implementation is not among the available sources).  Per the
spec the scaling "can be undone by calling unscale()": each entry `(i, j)`
is divided by the stored factors `rs i * cs j`. -/
def unscaleMatrix (rs cs : ℕ → ℚ) : ℕ → List (List ℚ) → List (List ℚ)
  | _, [] => []
  | i, row :: rest => unscaleRow (rs i) cs 0 row :: unscaleMatrix rs cs (i + 1) rest

/-- Data of one LP row (spec data model: sparse coefficient vector, a
left-hand side and a right-hand side). -/
structure RowData where
  lhs : ℚ
  rhs : ℚ
  vec : List ℚ
deriving DecidableEq, Repr

/-- Data of one LP column (spec data model: coefficient vector, lower
bound, upper bound and objective coefficient). -/
structure ColData where
  lower : ℚ
  upper : ℚ
  obj : ℚ
  vec : List ℚ
deriving DecidableEq, Repr

/-- Modelled from the spec: the `SoPlex2` LP with stable identifiers.
`soplex2.h` only declares `rowIdReal` / `colIdReal` / `idxReal` and the
add/change/remove operations; their implementations are not among the
available sources.  Per the spec's data model, "each row/column carries a
stable identifier distinct from its current positional index;
identifiers survive row/column deletion and reordering".  Rows and
columns are kept in positional order, each paired with its identifier;
fresh identifiers are drawn from the counters `nextRowId` /
`nextColId`. -/
structure IdLP where
  rows : List (ℕ × RowData)
  cols : List (ℕ × ColData)
  nextRowId : ℕ
  nextColId : ℕ
deriving DecidableEq, Repr

/-- The LP with no rows and no columns. -/
def emptyLP : IdLP := ⟨[], [], 0, 0⟩

/-- Modelled from the spec: `SoPlex2::numRowsReal` (soplex2.h:108). -/
def IdLP.numRowsReal (lp : IdLP) : ℕ := lp.rows.length

/-- Modelled from the spec: `SoPlex2::numColsReal` (soplex2.h:111). -/
def IdLP.numColsReal (lp : IdLP) : ℕ := lp.cols.length

/-- Modelled from the spec: `SoPlex2::idxReal(SPxRowId)` (soplex2.h:129),
the index of the row with a given identifier; -1 when the identifier is
not present (it is then invalid). -/
def IdLP.idxRealRow (lp : IdLP) (id : ℕ) : ℤ :=
  if lp.rows.findIdx (fun e => e.fst == id) = lp.rows.length then -1
  else (lp.rows.findIdx (fun e => e.fst == id) : ℤ)

/-- Modelled from the spec: `SoPlex2::idxReal(SPxColId)` (soplex2.h:132). -/
def IdLP.idxRealCol (lp : IdLP) (id : ℕ) : ℤ :=
  if lp.cols.findIdx (fun e => e.fst == id) = lp.cols.length then -1
  else (lp.cols.findIdx (fun e => e.fst == id) : ℤ)

/-- Modelled from the spec: `SoPlex2::getRowReal(SPxRowId, ...)`
(soplex2.h:141), querying a row by identifier; `none` when the
identifier is invalid. -/
def IdLP.getRowById (lp : IdLP) (id : ℕ) : Option RowData :=
  (lp.rows.find? (fun e => e.fst == id)).map Prod.snd

/-- Modelled from the spec: `SoPlex2::getColReal(SPxColId, ...)`
(soplex2.h:180), querying a column by identifier. -/
def IdLP.getColById (lp : IdLP) (id : ℕ) : Option ColData :=
  (lp.cols.find? (fun e => e.fst == id)).map Prod.snd

/-- Replaces the data at position `n`, keeping the identifier (used by the
change operations, which per soplex2.h replace a row/column in place). -/
def setEntryData {α : Type} : ℕ → α → List (ℕ × α) → List (ℕ × α)
  | _, _, [] => []
  | 0, d, e :: rest => (e.fst, d) :: rest
  | n + 1, d, e :: rest => e :: setEntryData n d rest

/-- Modelled from the spec: `SoPlex2::removeRowReal(int)` (soplex2.h:471),
removing the row at a position. -/
def IdLP.removeRowReal (i : ℕ) (lp : IdLP) : IdLP :=
  { lp with rows := lp.rows.eraseIdx i }

/-- Modelled from the spec: `SoPlex2::removeColReal(int)` (soplex2.h:494). -/
def IdLP.removeColReal (i : ℕ) (lp : IdLP) : IdLP :=
  { lp with cols := lp.cols.eraseIdx i }

/-- The add/change/remove operations of soplex2.h, as an operation
alphabet for "any sequence of add/change/remove operations". -/
inductive LPOp where
  | addRow (r : RowData)
  | addCol (c : ColData)
  | changeRow (i : ℕ) (r : RowData)
  | changeCol (i : ℕ) (c : ColData)
  | removeRow (i : ℕ)
  | removeCol (i : ℕ)
deriving DecidableEq, Repr

/-- Modelled from the spec: applying one add/change/remove operation.
`addRowReal` appends the row with a fresh identifier (identifiers are
stable and never reused); `changeRowReal` replaces the data keeping the
identifier; `removeRowReal` deletes the positional entry. -/
def applyOp (lp : IdLP) : LPOp → IdLP
  | LPOp.addRow r =>
      { lp with rows := lp.rows ++ [(lp.nextRowId, r)], nextRowId := lp.nextRowId + 1 }
  | LPOp.addCol c =>
      { lp with cols := lp.cols ++ [(lp.nextColId, c)], nextColId := lp.nextColId + 1 }
  | LPOp.changeRow i r => { lp with rows := setEntryData i r lp.rows }
  | LPOp.changeCol i c => { lp with cols := setEntryData i c lp.cols }
  | LPOp.removeRow i => IdLP.removeRowReal i lp
  | LPOp.removeCol i => IdLP.removeColReal i lp

/-- Applies a sequence of operations, first operation first. -/
def applyOps (ops : List LPOp) (lp : IdLP) : IdLP :=
  ops.foldl applyOp lp

/-- The identifier bookkeeping invariant of the model: identifiers on each
side are pairwise distinct and below the fresh-identifier counter. -/
def IdLP.Inv (lp : IdLP) : Prop :=
  (lp.rows.map Prod.fst).Nodup ∧ (∀ id ∈ lp.rows.map Prod.fst, id < lp.nextRowId) ∧
  (lp.cols.map Prod.fst).Nodup ∧ (∀ id ∈ lp.cols.map Prod.fst, id < lp.nextColId)

/-- Modelled from the spec: `SoPlex2::rowIdReal` (soplex2.h:123), the
identifier of the row at position `i`. -/
def IdLP.rowIdReal (lp : IdLP) (i : ℕ) (hi : i < lp.rows.length) : ℕ :=
  (lp.rows.get ⟨i, hi⟩).fst

/-- Modelled from the spec: `SoPlex2::colIdReal` (soplex2.h:126). -/
def IdLP.colIdReal (lp : IdLP) (j : ℕ) (hj : j < lp.cols.length) : ℕ :=
  (lp.cols.get ⟨j, hj⟩).fst

/-- A concrete operation sequence used to evaluate the identifier/index
agreement on an explicit input. -/
def sampleOps : List LPOp :=
  [LPOp.addRow ⟨0, 1, [1]⟩, LPOp.addCol ⟨0, 1, 1, [1]⟩,
   LPOp.addRow ⟨2, 3, [4]⟩, LPOp.removeRow 0]

/-- A concrete LP with two rows and two columns used to evaluate
identifier stability under removal on an explicit input. -/
def sampleLP : IdLP :=
  { rows := [(0, ⟨0, 1, [1, 2]⟩), (1, ⟨2, 3, [4]⟩)]
    cols := [(0, ⟨0, 5, 1, [1]⟩), (1, ⟨0, 6, 2, [2]⟩)]
    nextRowId := 2
    nextColId := 2 }

/-- Modelled from the spec: `SoPlex2::removeRowRangeReal` (soplex2.h:491)
"removes rows start to end including both".  The bounds are integers so
that the call `removeRowRangeReal(0, numRowsReal()-1)` is meaningful on an
empty LP; `i` is the position of the first listed row. -/
def dropRowRange (start fin : ℤ) : ℤ → List (ℕ × RowData) → List (ℕ × RowData)
  | _, [] => []
  | i, e :: rest =>
      if start ≤ i ∧ i ≤ fin then dropRowRange start fin (i + 1) rest
      else e :: dropRowRange start fin (i + 1) rest

/-- Modelled from the spec: `SoPlex2::removeRowRangeReal` (soplex2.h:491);
`removeRowRangeRational` (soplex2.h:651) is declared identically for the
rational LP, whose rows this model also represents (all numeric entries
are already `ℚ`). -/
def IdLP.removeRowRangeReal (start fin : ℤ) (lp : IdLP) : IdLP :=
  { lp with rows := dropRowRange start fin 0 lp.rows }

/-- The rational solution record (spec data model: primal vector, dual
vector, objective value, plus the availability flags stored with
`SolRational` in soplex2.h). -/
structure SolRational where
  primal : List ℚ
  dual : List ℚ
  objVal : ℚ
  hasPrimal : Bool
  hasPrimalRay : Bool
  hasDual : Bool
  hasDualFarkas : Bool

/-- The `SoPlex2` state relevant to rational solving (soplex2.h:
`_rationalLP`, `_statusRational`, `_solRational`, `_statistics`). -/
structure SoPlex2State where
  rationalLP : IdLP
  statusRational : SPxStatus
  solRational : SolRational
  statistics : Statistics

/-- Modelled from the spec: `SoPlex2::solveRational` (soplex2.h:752,
"synchronizes LPs, clears statistics, and solves rational LP"); the
implementation (solverational.cpp) is not among the available sources.
Per the spec's interface, `solveExact(LP, toleranceFeas, toleranceOpt,
limits) -> (status, solution)` is a function of the LP and the configured
parameters; the solver (with its parameters fixed) is passed in as the
function `solver`, the computed status and solution are stored, and the
solving statistics are cleared.  The LP itself is not modified. -/
def solveRational (solver : IdLP → SPxStatus × SolRational)
    (s : SoPlex2State) : SoPlex2State :=
  { s with
    statistics := Statistics.clearSolvingData s.statistics
    statusRational := (solver s.rationalLP).fst
    solRational := (solver s.rationalLP).snd }

/-- Claim C8: after constructing a `SoPlex::Statistics` object with any
timer type (hence from any prior field state), every counter field is
zero (iterations, iterationsPrimal, iterationsFromBasis, boundflips,
luFactorizationsReal, luSolvesReal, luFactorizationsRational,
rationalReconstructions, refinements, stallRefinements, pivotRefinements,
feasRefinements, unbdRefinements) and every LU time accumulator is 0,
because the constructor invokes `clearAllData`. -/
theorem Statistics.construct_zeroes (init : Statistics) :
    (Statistics.construct init).iterations = 0 ∧
    (Statistics.construct init).iterationsPrimal = 0 ∧
    (Statistics.construct init).iterationsFromBasis = 0 ∧
    (Statistics.construct init).boundflips = 0 ∧
    (Statistics.construct init).luFactorizationsReal = 0 ∧
    (Statistics.construct init).luSolvesReal = 0 ∧
    (Statistics.construct init).luFactorizationsRational = 0 ∧
    (Statistics.construct init).rationalReconstructions = 0 ∧
    (Statistics.construct init).refinements = 0 ∧
    (Statistics.construct init).stallRefinements = 0 ∧
    (Statistics.construct init).pivotRefinements = 0 ∧
    (Statistics.construct init).feasRefinements = 0 ∧
    (Statistics.construct init).unbdRefinements = 0 ∧
    (Statistics.construct init).luFactorizationTimeReal = 0 ∧
    (Statistics.construct init).luSolveTimeReal = 0 ∧
    (Statistics.construct init).luFactorizationTimeRational = 0 ∧
    (Statistics.construct init).luSolveTimeRational = 0 :=
  ⟨rfl, rfl, rfl, rfl, rfl, rfl, rfl, rfl, rfl, rfl, rfl, rfl, rfl, rfl,
   rfl, rfl, rfl⟩

/-- Claim C9: `clearSolvingData` resets exactly the solving-related
timers, LU time accumulators and counters and leaves the reading time
unchanged (field-by-field: `readingTime` is preserved, every other field
of the `Statistics` record is reset to 0), while `clearAllData` performs
the same resets and additionally resets the reading time; no other field
is modified by either operation. -/
theorem Statistics.clear_frame (s : Statistics) :
    (Statistics.clearSolvingData s).readingTime = s.readingTime ∧
    (Statistics.clearSolvingData s).solvingTime = 0 ∧
    (Statistics.clearSolvingData s).preprocessingTime = 0 ∧
    (Statistics.clearSolvingData s).simplexTime = 0 ∧
    (Statistics.clearSolvingData s).syncTime = 0 ∧
    (Statistics.clearSolvingData s).transformTime = 0 ∧
    (Statistics.clearSolvingData s).rationalTime = 0 ∧
    (Statistics.clearSolvingData s).reconstructionTime = 0 ∧
    (Statistics.clearSolvingData s).luFactorizationTimeReal = 0 ∧
    (Statistics.clearSolvingData s).luSolveTimeReal = 0 ∧
    (Statistics.clearSolvingData s).luFactorizationTimeRational = 0 ∧
    (Statistics.clearSolvingData s).luSolveTimeRational = 0 ∧
    (Statistics.clearSolvingData s).iterations = 0 ∧
    (Statistics.clearSolvingData s).iterationsPrimal = 0 ∧
    (Statistics.clearSolvingData s).iterationsFromBasis = 0 ∧
    (Statistics.clearSolvingData s).boundflips = 0 ∧
    (Statistics.clearSolvingData s).luFactorizationsReal = 0 ∧
    (Statistics.clearSolvingData s).luSolvesReal = 0 ∧
    (Statistics.clearSolvingData s).luFactorizationsRational = 0 ∧
    (Statistics.clearSolvingData s).rationalReconstructions = 0 ∧
    (Statistics.clearSolvingData s).refinements = 0 ∧
    (Statistics.clearSolvingData s).stallRefinements = 0 ∧
    (Statistics.clearSolvingData s).pivotRefinements = 0 ∧
    (Statistics.clearSolvingData s).feasRefinements = 0 ∧
    (Statistics.clearSolvingData s).unbdRefinements = 0 ∧
    Statistics.clearAllData s =
      { Statistics.clearSolvingData s with readingTime := 0 } :=
  ⟨rfl, rfl, rfl, rfl, rfl, rfl, rfl, rfl, rfl, rfl, rfl, rfl, rfl, rfl,
   rfl, rfl, rfl, rfl, rfl, rfl, rfl, rfl, rfl, rfl, rfl, rfl⟩

/-- Claim C7: calling `solveRational` twice in a row without modifying
the LP in between returns the identical status and the identical
solution record (primal vector, dual vector, objective value and
availability flags) both times. -/
theorem solveRational_idempotent (solver : IdLP → SPxStatus × SolRational)
    (s : SoPlex2State) :
    (solveRational solver (solveRational solver s)).statusRational =
      (solveRational solver s).statusRational ∧
    (solveRational solver (solveRational solver s)).solRational =
      (solveRational solver s).solRational :=
  ⟨rfl, rfl⟩

/-- Claim C10: `Validation::updateExternalSolution` returns true for
every input string and sets the validate flag, and
`Validation::updateValidationTolerance` returns true for every
tolerance; consequently the usage-error branch of `runSoPlex` guarded by
a false return from `updateExternalSolution` is never taken. -/
theorem updateExternalSolution_always_true (solution : String)
    (tolerance : ℚ) (v : Validation) :
    (Validation.updateExternalSolution solution v).fst = true ∧
    (Validation.updateExternalSolution solution v).snd.validate = true ∧
    (Validation.updateValidationTolerance tolerance v).fst = true ∧
    extsolUsageErrorBranchTaken solution v = false :=
  ⟨rfl, rfl, rfl, rfl⟩

/-- Claim C1: `Validation::validateSolveReal` reports success if and only
if the absolute difference between the external reference objective (the
parsed `--extsol` value) and `objValueReal()` is within the validation
tolerance and, when the solver status is OPTIMAL, each of the maximum
bound, row, reduced-cost and dual violations is at most the tolerance;
every comparison against the tolerance is closed (a violation exactly
equal to the tolerance passes). -/
theorem validateSolveReal_success_iff (strtod : String → ℚ)
    (v : Validation) (sp : SoPlex) :
    Validation.validateSolveReal strtod v sp = true ↔
      (|parseExternalSol strtod v.validatesolution - sp.objValueReal| ≤
          v.validatetolerance ∧
       (sp.status = SPxStatus.OPTIMAL →
         sp.maxBoundViolation ≤ v.validatetolerance ∧
         sp.maxRowViolation ≤ v.validatetolerance ∧
         sp.maxRedCostViolation ≤ v.validatetolerance ∧
         sp.maxDualViolation ≤ v.validatetolerance)) := by
  unfold Validation.validateSolveReal EQ LE
  by_cases h : sp.status = SPxStatus.OPTIMAL <;>
    (simp [h, sub_zero, abs_abs]; try tauto)

/-- Claim C2, evaluated at the failing input: the non-numeric external
solution string "abc" is accepted by `Validation::updateExternalSolution`
(it returns true and sets the validate flag) instead of being rejected at
the call that introduced it. -/
theorem updateExternalSolution_accepts_nonnumeric :
    (Validation.updateExternalSolution "abc"
      { validate := false, validatesolution := "", validatetolerance := 0 }).fst
      = true ∧
    (Validation.updateExternalSolution "abc"
      { validate := false, validatesolution := "", validatetolerance := 0 }).snd.validate
      = true :=
  ⟨rfl, rfl⟩

/-- Dropping an index range that covers every position of the list leaves
nothing: auxiliary induction for the row-range removal. -/
theorem dropRowRange_covering :
    ∀ (l : List (ℕ × RowData)) (start fin i : ℤ), start ≤ i →
      i + l.length - 1 ≤ fin → dropRowRange start fin i l = [] := by
  intro l
  induction l with
  | nil => intro start fin i _ _; rfl
  | cons e rest ih =>
      intro start fin i h1 h2
      have hlen : ((e :: rest).length : ℤ) = (rest.length : ℤ) + 1 := by
        push_cast [List.length_cons]; ring
      have hrest : (0 : ℤ) ≤ (rest.length : ℤ) := Int.natCast_nonneg _
      have hi : i ≤ fin := by rw [hlen] at h2; omega
      simp only [dropRowRange, if_pos (And.intro h1 hi)]
      exact ih start fin (i + 1) (by omega) (by rw [hlen] at h2; omega)

/-- Claim C6: removing all rows via the row-range removal operation
`removeRowRangeReal(0, numRowsReal()-1)` (and identically its rational
counterpart, which this model also represents) and then querying the
number of rows returns 0, for every loaded LP. -/
theorem removeRowRange_all_then_numRows_zero (lp : IdLP) :
    (IdLP.removeRowRangeReal 0 ((lp.numRowsReal : ℤ) - 1) lp).numRowsReal = 0 := by
  unfold IdLP.removeRowRangeReal IdLP.numRowsReal
  rw [dropRowRange_covering lp.rows 0 ((lp.rows.length : ℤ) - 1) 0 le_rfl
    (by omega)]
  rfl

/-- Unscaling one scaled row restores it: auxiliary induction for the
scaler round-trip. -/
theorem unscaleRow_scaleRow (r : ℚ) (cs : ℕ → ℚ) (hr : r ≠ 0)
    (hcs : ∀ j, cs j ≠ 0) :
    ∀ (l : List ℚ) (j : ℕ), unscaleRow r cs j (scaleRow r cs j l) = l := by
  intro l
  induction l with
  | nil => intro j; rfl
  | cons a rest ih =>
      intro j
      simp only [scaleRow, unscaleRow, ih (j + 1)]
      rw [mul_div_cancel_right₀ _ (mul_ne_zero hr (hcs j))]

/-- Unscaling the scaled matrix restores it, from any starting row
index: auxiliary induction for the scaler round-trip. -/
theorem unscaleMatrix_scaleMatrix (rs cs : ℕ → ℚ) (hrs : ∀ i, rs i ≠ 0)
    (hcs : ∀ j, cs j ≠ 0) :
    ∀ (A : List (List ℚ)) (i : ℕ),
      unscaleMatrix rs cs i (scaleMatrix rs cs i A) = A := by
  intro A
  induction A with
  | nil => intro i; rfl
  | cons row rest ih =>
      intro i
      simp only [scaleMatrix, unscaleMatrix, ih (i + 1),
        unscaleRow_scaleRow (rs i) cs (hrs i) hcs row 0]

/-- Claim C3: for every LP coefficient matrix and every choice of scaling
factors a scaler variant can produce (any nonzero row and column
factors), applying `scale()` and then `unscale()` reproduces every row
and column coefficient exactly (arithmetic is exact here, so "up to
floating-point rounding only" is exact reproduction); no information
about the coefficients is lost. -/
theorem scale_unscale_roundtrip (rs cs : ℕ → ℚ) (hrs : ∀ i, rs i ≠ 0)
    (hcs : ∀ j, cs j ≠ 0) (A : List (List ℚ)) :
    unscaleMatrix rs cs 0 (scaleMatrix rs cs 0 A) = A :=
  unscaleMatrix_scaleMatrix rs cs hrs hcs A 0

/-- Replacing the data at a position does not change the identifiers. -/
theorem map_fst_setEntryData {α : Type} (d : α) :
    ∀ (l : List (ℕ × α)) (n : ℕ),
      (setEntryData n d l).map Prod.fst = l.map Prod.fst := by
  intro l
  induction l with
  | nil => intro n; cases n <;> rfl
  | cons e rest ih =>
      intro n
      cases n with
      | zero => rfl
      | succ m => simp [setEntryData, ih m]

/-- Appending an entry with a fresh identifier keeps the identifiers
pairwise distinct and bounded by the bumped counter. -/
theorem fresh_append_invariant {α : Type} (l : List (ℕ × α)) (d : α) (n : ℕ)
    (hnd : (l.map Prod.fst).Nodup) (hb : ∀ id ∈ l.map Prod.fst, id < n) :
    ((l ++ [(n, d)]).map Prod.fst).Nodup ∧
    (∀ id ∈ (l ++ [(n, d)]).map Prod.fst, id < n + 1) := by
  constructor
  · rw [List.map_append, List.nodup_append]
    refine ⟨hnd, List.nodup_singleton _, ?_⟩
    intro a ha hb2
    simp only [List.map_cons, List.map_nil, List.mem_singleton] at hb2
    subst hb2
    exact absurd (hb _ ha) (lt_irrefl _)
  · intro id hid
    rw [List.map_append] at hid
    rcases List.mem_append.mp hid with h1 | h2
    · exact Nat.lt_succ_of_lt (hb _ h1)
    · simp only [List.map_cons, List.map_nil, List.mem_singleton] at h2
      subst h2
      exact Nat.lt_succ_self _

/-- Erasing a position keeps the identifiers pairwise distinct and
bounded. -/
theorem erase_invariant {α : Type} (l : List (ℕ × α)) (i n : ℕ)
    (hnd : (l.map Prod.fst).Nodup) (hb : ∀ id ∈ l.map Prod.fst, id < n) :
    ((l.eraseIdx i).map Prod.fst).Nodup ∧
    (∀ id ∈ (l.eraseIdx i).map Prod.fst, id < n) := by
  have hsub : List.Sublist ((l.eraseIdx i).map Prod.fst) (l.map Prod.fst) :=
    (List.eraseIdx_sublist l i).map Prod.fst
  exact ⟨hnd.sublist hsub, fun id hid => hb id (hsub.subset hid)⟩

/-- Every add/change/remove operation preserves the identifier
invariant. -/
theorem Inv_applyOp (lp : IdLP) (op : LPOp) (h : IdLP.Inv lp) :
    IdLP.Inv (applyOp lp op) := by
  obtain ⟨hr, hrb, hc, hcb⟩ := h
  cases op with
  | addRow r =>
      obtain ⟨h1, h2⟩ := fresh_append_invariant lp.rows r lp.nextRowId hr hrb
      exact ⟨h1, h2, hc, hcb⟩
  | addCol c =>
      obtain ⟨h1, h2⟩ := fresh_append_invariant lp.cols c lp.nextColId hc hcb
      exact ⟨hr, hrb, h1, h2⟩
  | changeRow i r =>
      refine ⟨?_, ?_, hc, hcb⟩ <;>
        simp only [applyOp, map_fst_setEntryData] <;> [exact hr; exact hrb]
  | changeCol i c =>
      refine ⟨hr, hrb, ?_, ?_⟩ <;>
        simp only [applyOp, map_fst_setEntryData] <;> [exact hc; exact hcb]
  | removeRow i =>
      obtain ⟨h1, h2⟩ := erase_invariant lp.rows i lp.nextRowId hr hrb
      exact ⟨h1, h2, hc, hcb⟩
  | removeCol i =>
      obtain ⟨h1, h2⟩ := erase_invariant lp.cols i lp.nextColId hc hcb
      exact ⟨hr, hrb, h1, h2⟩

/-- The empty LP satisfies the identifier invariant. -/
theorem Inv_emptyLP : IdLP.Inv emptyLP := by
  refine ⟨List.nodup_nil, ?_, List.nodup_nil, ?_⟩ <;> intro id hid <;>
    simp [emptyLP] at hid

/-- Any operation sequence preserves the identifier invariant. -/
theorem Inv_applyOps (ops : List LPOp) :
    ∀ (lp : IdLP), IdLP.Inv lp → IdLP.Inv (applyOps ops lp) := by
  induction ops with
  | nil => intro lp h; exact h
  | cons op rest ih => intro lp h; exact ih _ (Inv_applyOp lp op h)

/-- With pairwise-distinct identifiers, searching for the identifier
stored at position `i` finds exactly position `i`. -/
theorem findIdx_fst_get {α : Type} :
    ∀ (l : List (ℕ × α)), (l.map Prod.fst).Nodup →
      ∀ (i : ℕ) (hi : i < l.length),
        l.findIdx (fun e => e.fst == (l.get ⟨i, hi⟩).fst) = i := by
  intro l
  induction l with
  | nil => intro _ i hi; exact absurd hi (Nat.not_lt_zero i)
  | cons a t ih =>
      intro hnd i hi
      have hna : a.fst ∉ t.map Prod.fst := by
        simp only [List.map_cons, List.nodup_cons] at hnd
        exact hnd.1
      have hndt : (t.map Prod.fst).Nodup := by
        simp only [List.map_cons, List.nodup_cons] at hnd
        exact hnd.2
      cases i with
      | zero => simp [List.findIdx_cons]
      | succ j =>
          have hj : j < t.length := by simpa using hi
          have hmem : (t.get ⟨j, hj⟩).fst ∈ t.map Prod.fst :=
            List.mem_map_of_mem Prod.fst (t.get_mem j hj)
          have hne : (a.fst == ((a :: t).get ⟨j + 1, hi⟩).fst) = false := by
            simp only [List.get_cons_succ]
            exact beq_eq_false_iff_ne.mpr (fun he => hna (he ▸ hmem))
          simp only [List.findIdx_cons, hne, cond_false]
          have := ih hndt j hj
          simp only [List.get_cons_succ]
          omega

/-- Claim C4: for every loaded LP reached by any sequence of
add/change/remove operations and every valid positional index, the
index-to-identifier and identifier-to-index lookups agree:
`idxReal(rowIdReal(i)) = i` and `idxReal(colIdReal(j)) = j`. -/
theorem idxReal_rowId_colId_agree (ops : List LPOp) (i j : ℕ)
    (hi : i < (applyOps ops emptyLP).rows.length)
    (hj : j < (applyOps ops emptyLP).cols.length) :
    IdLP.idxRealRow (applyOps ops emptyLP)
        (IdLP.rowIdReal (applyOps ops emptyLP) i hi) = (i : ℤ) ∧
    IdLP.idxRealCol (applyOps ops emptyLP)
        (IdLP.colIdReal (applyOps ops emptyLP) j hj) = (j : ℤ) := by
  obtain ⟨hr, _, hc, _⟩ := Inv_applyOps ops emptyLP Inv_emptyLP
  constructor
  · unfold IdLP.idxRealRow IdLP.rowIdReal
    rw [findIdx_fst_get _ hr i hi, if_neg (Nat.ne_of_lt hi)]
  · unfold IdLP.idxRealCol IdLP.colIdReal
    rw [findIdx_fst_get _ hc j hj, if_neg (Nat.ne_of_lt hj)]

/-- Witness for Claim C4 on a concrete operation sequence containing an
add, a change-free add on the other side, a second add and a removal. -/
theorem idxReal_rowId_colId_agree_witness :
    0 < (applyOps sampleOps emptyLP).rows.length ∧
    0 < (applyOps sampleOps emptyLP).cols.length ∧
    (IdLP.idxRealRow (applyOps sampleOps emptyLP)
        (IdLP.rowIdReal (applyOps sampleOps emptyLP) 0 (by decide)) = 0 ∧
     IdLP.idxRealCol (applyOps sampleOps emptyLP)
        (IdLP.colIdReal (applyOps sampleOps emptyLP) 0 (by decide)) = 0) :=
  ⟨by decide, by decide,
   idxReal_rowId_colId_agree sampleOps 0 0 (by decide) (by decide)⟩

/-- Erasing a position whose identifier differs from the queried one does
not change an identifier search. -/
theorem find_eraseIdx_ne {α : Type} :
    ∀ (l : List (ℕ × α)) (i : ℕ) (hi : i < l.length) (id : ℕ),
      id ≠ (l.get ⟨i, hi⟩).fst →
      (l.eraseIdx i).find? (fun e => e.fst == id) =
        l.find? (fun e => e.fst == id) := by
  intro l
  induction l with
  | nil => intro i hi; exact absurd hi (Nat.not_lt_zero i)
  | cons a t ih =>
      intro i hi id hne
      cases i with
      | zero =>
          have hpa : (a.fst == id) = false := by
            rw [beq_eq_false_iff_ne]
            exact fun he => hne he.symm
          rw [List.eraseIdx_cons_zero]
          simp [List.find?_cons, hpa]
      | succ j =>
          have hj : j < t.length := by simpa using hi
          have hne2 : id ≠ (t.get ⟨j, hj⟩).fst := by simpa using hne
          rw [List.eraseIdx_cons_succ]
          cases hpa : (a.fst == id) with
          | true => simp [List.find?_cons, hpa]
          | false =>
              simp only [List.find?_cons, hpa]
              exact ih j hj id hne2

/-- With pairwise-distinct identifiers, after erasing position `i` a
search for the erased identifier finds nothing. -/
theorem find_eraseIdx_self {α : Type} :
    ∀ (l : List (ℕ × α)), (l.map Prod.fst).Nodup →
      ∀ (i : ℕ) (hi : i < l.length),
        (l.eraseIdx i).find? (fun e => e.fst == (l.get ⟨i, hi⟩).fst) = none := by
  intro l
  induction l with
  | nil => intro _ i hi; exact absurd hi (Nat.not_lt_zero i)
  | cons a t ih =>
      intro hnd i hi
      have hna : a.fst ∉ t.map Prod.fst := by
        simp only [List.map_cons, List.nodup_cons] at hnd
        exact hnd.1
      have hndt : (t.map Prod.fst).Nodup := by
        simp only [List.map_cons, List.nodup_cons] at hnd
        exact hnd.2
      cases i with
      | zero =>
          rw [List.eraseIdx_cons_zero, List.find?_eq_none]
          intro x hx
          simp only [beq_iff_eq]
          intro he
          exact hna (he ▸ List.mem_map_of_mem Prod.fst hx)
      | succ j =>
          have hj : j < t.length := by simpa using hi
          have hmem : (t.get ⟨j, hj⟩).fst ∈ t.map Prod.fst :=
            List.mem_map_of_mem Prod.fst (t.get_mem j hj)
          have hpa : (a.fst == ((a :: t).get ⟨j + 1, hi⟩).fst) = false := by
            simp only [List.get_cons_succ, beq_eq_false_iff_ne]
            exact fun he => hna (he ▸ hmem)
          rw [List.eraseIdx_cons_succ]
          simp only [List.find?_cons, hpa]
          simp only [List.get_cons_succ]
          exact ih hndt j hj

/-- Claim C5: for every loaded LP (identifiers pairwise distinct, as the
identifier invariant guarantees) and every valid row index `i` and
column index `j`, after removing the row (respectively column) at that
index, querying by the identifiers of all other rows and columns returns
the same data (bounds, sides, coefficient vectors, objective entries) as
before the removal; only the identifier of the removed element becomes
invalid (its query returns none). -/
theorem remove_preserves_other_identifier_queries (lp : IdLP) (i j : ℕ)
    (hndr : (lp.rows.map Prod.fst).Nodup)
    (hndc : (lp.cols.map Prod.fst).Nodup)
    (hi : i < lp.rows.length) (hj : j < lp.cols.length) :
    (∀ id, id ≠ IdLP.rowIdReal lp i hi →
        (IdLP.removeRowReal i lp).getRowById id = lp.getRowById id) ∧
    (IdLP.removeRowReal i lp).getRowById (IdLP.rowIdReal lp i hi) = none ∧
    (∀ id, (IdLP.removeRowReal i lp).getColById id = lp.getColById id) ∧
    (∀ id, id ≠ IdLP.colIdReal lp j hj →
        (IdLP.removeColReal j lp).getColById id = lp.getColById id) ∧
    (IdLP.removeColReal j lp).getColById (IdLP.colIdReal lp j hj) = none ∧
    (∀ id, (IdLP.removeColReal j lp).getRowById id = lp.getRowById id) := by
  refine ⟨?_, ?_, fun id => rfl, ?_, ?_, fun id => rfl⟩
  · intro id hne
    unfold IdLP.getRowById IdLP.removeRowReal
    rw [find_eraseIdx_ne lp.rows i hi id hne]
  · unfold IdLP.getRowById IdLP.removeRowReal IdLP.rowIdReal
    rw [find_eraseIdx_self lp.rows hndr i hi]
    rfl
  · intro id hne
    unfold IdLP.getColById IdLP.removeColReal
    rw [find_eraseIdx_ne lp.cols j hj id hne]
  · unfold IdLP.getColById IdLP.removeColReal IdLP.colIdReal
    rw [find_eraseIdx_self lp.cols hndc j hj]
    rfl

/-- Witness for Claim C5 on a concrete two-row, two-column LP: removing
row 0 keeps the query for row identifier 1 and column identifier 0
unchanged, and invalidates the removed row identifier. -/
theorem remove_preserves_other_identifier_queries_witness :
    ((sampleLP.rows.map Prod.fst).Nodup ∧
     (sampleLP.cols.map Prod.fst).Nodup) ∧
    (IdLP.removeRowReal 0 sampleLP).getRowById 1 = sampleLP.getRowById 1 ∧
    (IdLP.removeRowReal 0 sampleLP).getRowById
      (IdLP.rowIdReal sampleLP 0 (by decide)) = none ∧
    (IdLP.removeRowReal 0 sampleLP).getColById 0 = sampleLP.getColById 0 :=
  ⟨⟨by decide, by decide⟩,
   (remove_preserves_other_identifier_queries sampleLP 0 0 (by decide)
      (by decide) (by decide) (by decide)).1 1 (by decide),
   (remove_preserves_other_identifier_queries sampleLP 0 0 (by decide)
      (by decide) (by decide) (by decide)).2.1,
   (remove_preserves_other_identifier_queries sampleLP 0 0 (by decide)
      (by decide) (by decide) (by decide)).2.2.1 0⟩

/-- Witness for Claim C3 at a concrete matrix and concrete factors. -/
theorem scale_unscale_roundtrip_witness :
    ((2 : ℚ) ≠ 0 ∧ (3 : ℚ) ≠ 0) ∧
    unscaleMatrix (fun _ => (2 : ℚ)) (fun _ => (3 : ℚ)) 0
        (scaleMatrix (fun _ => (2 : ℚ)) (fun _ => (3 : ℚ)) 0
          [[1, 5 / 2], [0, 7]]) = [[1, 5 / 2], [0, 7]] :=
  ⟨⟨two_ne_zero, three_ne_zero⟩,
   scale_unscale_roundtrip (fun _ => (2 : ℚ)) (fun _ => (3 : ℚ))
     (fun _ => two_ne_zero) (fun _ => three_ne_zero) [[1, 5 / 2], [0, 7]]⟩

end soplex
